import Mathlib

/-!
Shallow embedding of the module-resolution and symbol-indexing engine of the
`vscode-scss-navigator` extension, together with proofs settling the frozen
claims about it.

Sources embedded (TypeScript):
  * `scss-variable-provider.ts` — `parseScssImports`, `parseForwardImports`,
    `findDefinitionInFile`;
  * `scss-definition-provider.ts` — `resolveScssPath`, `findScssFile`,
    `validateScssImports`;
  * `scss-completion-provider.ts` — `collectSymbolsFromFile`,
    `collectSymbolsRecursively`;
  * `scss-cache.ts` — the four-partition per-repository cache;
  * `tsconfig-parser.ts` — `resolveAlias`.

Strings are modelled as `List Char`; the file system as an association list
from absolute path to file text; the VS Code / Node I/O layer (readFile,
existsSync) as lookups in that list.  Node's `path.posix` helpers
(`join`, `resolve`, `dirname`, `basename`) are modelled below with their
segment-normalisation semantics.  JavaScript regular expressions are modelled
by hand-written scanners that follow the concrete regex literals of the
source character by character (leftmost match, greedy repetition, `lastIndex`
advancing past each match for the `g`-flagged ones).
-/

namespace ScssNavigator

/-- Model of a JavaScript string: a list of characters. -/
abbrev Str := List Char

/-- JavaScript `\s` (whitespace) for the characters that can occur in
a single line of a stylesheet. -/
def isSpaceChar (c : Char) : Bool :=
  c = (' ') || c = ('\t') || c = ('\r') || c = (Char.ofNat 11) ||
  c = (Char.ofNat 12) || c = (Char.ofNat 160)

/-- JavaScript `\w`: ASCII letters, digits and underscore. -/
def isWordChar (c : Char) : Bool :=
  c.isAlphanum || c = ('_')

/-- The character class `[a-zA-Z0-9_-]` used by the symbol-extraction
regexes. -/
def isSymNameChar (c : Char) : Bool :=
  isWordChar c || c = ('-')

/-- The character class `["']` (either quote) of the import regexes. -/
def isQuoteChar (c : Char) : Bool :=
  c = ('"') || c = (Char.ofNat 39)

/-- JavaScript `s.startsWith(p)`. -/
def startsWith : Str → Str → Bool
  | _, [] => true
  | [], _ :: _ => false
  | c :: s, d :: p => c = d && startsWith s p

/-- JavaScript `s.endsWith(p)`. -/
def endsWith (s p : Str) : Bool :=
  startsWith s.reverse p.reverse

/-- `dropLit lit s` consumes the literal `lit` at the head of `s`
(`some` of the rest on success). -/
def dropLit : Str → Str → Option Str
  | [], s => some s
  | _ :: _, [] => none
  | c :: l, d :: s => if c = d then dropLit l s else none

/-- Greedy `\s+`: at least one whitespace character, then as many as
possible. -/
def ws1 (s : Str) : Option Str :=
  match s with
  | [] => none
  | c :: r => if isSpaceChar c then some (r.dropWhile isSpaceChar) else none

/-- Leading and trailing whitespace removal, JavaScript `s.trim()`. -/
def trim (s : Str) : Str :=
  ((s.dropWhile isSpaceChar).reverse.dropWhile isSpaceChar).reverse

/-- Split on a separator character (JavaScript `s.split(sep)`). -/
def splitOnChar (sep : Char) (s : Str) : List Str :=
  s.foldr
    (fun ch acc =>
      if ch = sep then [] :: acc
      else
        match acc with
        | h :: t => (ch :: h) :: t
        | [] => [[ch]])
    [[]]

/-- Split a file's text into lines, modelling `text.split(/\r?\n/)`:
a `\r` immediately followed by `\n` is dropped together with it. -/
def splitLines : Str → List Str
  | [] => [[]]
  | c :: rest =>
    if c = ('\n') then [] :: splitLines rest
    else if c = ('\r') && (match rest with | d :: _ => d = ('\n') | [] => false) then
      splitLines rest
    else
      match splitLines rest with
      | h :: t => (c :: h) :: t
      | [] => [[c]]

/-- JavaScript `s.indexOf(sub)` (first index at which `sub` occurs). -/
def indexOfSub (s sub : Str) : Option Nat :=
  if startsWith s sub then some 0
  else
    match s with
    | [] => none
    | _ :: r => (indexOfSub r sub).map (· + 1)

/-! ### Node `path.posix` model

The extension runs `path.join` / `path.resolve` / `path.dirname` /
`path.basename` on POSIX-style absolute paths.  We model them with the usual
segment normalisation (drop empty and `.` segments, resolve `..`). -/

def dotSeg : Str := (".").data
def dotDotSeg : Str := ("..").data

/-- One step of segment normalisation. -/
def normStep (abs : Bool) (stack : List Str) (seg : Str) : List Str :=
  if seg = [] then stack
  else if seg = dotSeg then stack
  else if seg = dotDotSeg then
    if abs then stack.dropLast
    else
      match stack.getLast? with
      | some l => if l = dotDotSeg then stack ++ [seg] else stack.dropLast
      | none => [seg]
  else stack ++ [seg]

/-- Whether a path is absolute (starts with `/`). -/
def isAbsPath (s : Str) : Bool :=
  match s with
  | c :: _ => c = ('/')
  | [] => false

/-- Normalise a POSIX path (model of Node `path.posix.normalize`). -/
def pnorm (s : Str) : Str :=
  let abs := isAbsPath s
  let segs := (splitOnChar ('/') s).foldl (normStep abs) []
  let body := List.intercalate (("/").data) segs
  if abs then ('/') :: body
  else if body = [] then dotSeg else body

/-- Model of Node `path.posix.join` for two arguments. -/
def pjoin (a b : Str) : Str :=
  if a = [] then pnorm b
  else if b = [] then pnorm a
  else pnorm (a ++ ('/') :: b)

/-- Model of Node `path.posix.resolve(dir, p)` for an absolute `dir`. -/
def presolve (dir p : Str) : Str :=
  if isAbsPath p then pnorm p else pjoin dir p

/-- Drop characters from the end while a predicate holds. -/
def dropWhileEnd (p : Char → Bool) (s : Str) : Str :=
  (s.reverse.dropWhile p).reverse

/-- Model of Node `path.posix.basename`. -/
def pbasename (s : Str) : Str :=
  ((splitOnChar ('/') (dropWhileEnd (fun c => c = ('/')) s)).getLast?).getD []

/-- Index of the last `/` in a path, if any. -/
def lastSlashIdx (s : Str) : Option Nat :=
  (s.reverse.findIdx? (fun c => c = ('/'))).map (fun i => s.length - 1 - i)

/-- Model of Node `path.posix.dirname`. -/
def pdirname (s : Str) : Str :=
  let s' := dropWhileEnd (fun c => c = ('/')) s
  match lastSlashIdx s' with
  | none => if isAbsPath s then [('/')] else dotSeg
  | some 0 => [('/')]
  | some i => s'.take i

/-! ### Scanners for the import-statement regexes

`parseScssImports` uses
  `useRegex = /@use\s+["']([^"']+)["'](?:\s+as\s+(\*|\w+))?/g` and
  `forwardRegex = /@forward\s+["']([^"']+)["']/g`;
`parseScssImport` / `validateScssImports` use
  `/@(?:use|forward|import)\s+['"]([^'"]+)['"]/` (optionally `g`-flagged).
Each scanner below matches one occurrence at the head of the string; the
generic `scanAll` then reproduces the repeated-`exec` loop (leftmost match,
`lastIndex` advancing past each match). -/

/-- Consume one quote character (`["']`, either kind). -/
def quoteOpen (s : Str) : Option Str :=
  match s with
  | c :: r => if isQuoteChar c then some r else none
  | [] => none

/-- `\s+["']([^"']+)["']` — whitespace, then a quoted non-empty path.
Returns the captured path and the rest of the input. -/
def quotedPath (s : Str) : Option (Str × Str) :=
  match ws1 s with
  | none => none
  | some s1 =>
    match quoteOpen s1 with
    | none => none
    | some s2 =>
      let p := s2.takeWhile (fun c => !(isQuoteChar c))
      let s3 := s2.dropWhile (fun c => !(isQuoteChar c))
      if p = [] then none
      else
        match quoteOpen s3 with
        | none => none
        | some s4 => some (p, s4)

/-- The optional `(?:\s+as\s+(\*|\w+))?` clause of `useRegex`. -/
def asClause (s : Str) : Option (Str × Str) :=
  match ws1 s with
  | none => none
  | some s1 =>
    match dropLit (("as").data) s1 with
    | none => none
    | some s2 =>
      match ws1 s2 with
      | none => none
      | some s3 =>
        match s3 with
        | c :: r =>
          if c = ('*') then some ([c], r)
          else
            let w := s3.takeWhile isWordChar
            let r2 := s3.dropWhile isWordChar
            if w = [] then none else some (w, r2)
        | [] => none

/-- Match `useRegex` at the head of the input: captured path, optional
captured namespace token, and the rest. -/
def matchUseAt (s : Str) : Option ((Str × Option Str) × Str) :=
  match dropLit (("@use").data) s with
  | none => none
  | some s1 =>
    match quotedPath s1 with
    | none => none
    | some (p, s2) =>
      match asClause s2 with
      | some (tok, s3) => some ((p, some tok), s3)
      | none => some ((p, none), s2)

/-- Match `forwardRegex` at the head of the input. -/
def matchForwardAt (s : Str) : Option (Str × Str) :=
  match dropLit (("@forward").data) s with
  | none => none
  | some s1 => quotedPath s1

/-- Match `/@(?:use|forward|import)\s+['"]([^'"]+)['"]/` at the head of
the input.  The three keyword alternatives differ in their first letter,
so at most one of them can apply. -/
def matchAnyImportAt (s : Str) : Option (Str × Str) :=
  match s with
  | c :: s0 =>
    if c = ('@') then
      match dropLit (("use").data) s0 <|> dropLit (("forward").data) s0 <|>
            dropLit (("import").data) s0 with
      | none => none
      | some s1 => quotedPath s1
    else none
  | [] => none

/-- Fueled repeated-`exec` loop: if the matcher succeeds, emit the match and
continue after it; otherwise advance one character.  One unit of fuel per
character suffices because every matcher consumes at least one character
(see `scanWithFuel_congr`). -/
def scanWithFuel (m : Str → Option (α × Str)) : Nat → Str → List α
  | 0, _ => []
  | n + 1, s =>
    match m s with
    | some (a, r) => a :: scanWithFuel m n r
    | none =>
      match s with
      | [] => []
      | _ :: rest => scanWithFuel m n rest

/-- All matches of a `g`-flagged regex over one line. -/
def scanAll (m : Str → Option (α × Str)) (s : Str) : List α :=
  scanWithFuel m s.length s

/-- All matches of `useRegex` in a line: `(path, namespace token?)` pairs. -/
def scanUseLine (line : Str) : List (Str × Option Str) :=
  scanAll matchUseAt line

/-- All matches of `forwardRegex` in a line: the captured paths. -/
def scanForwardLine (line : Str) : List Str :=
  scanAll matchForwardAt line

/-- All matches of the combined `@use`/`@forward`/`@import` regex. -/
def scanAnyImportLine (line : Str) : List Str :=
  scanAll matchAnyImportAt line

/-- Non-global `line.match(forwardRegex)`: the first match only
(used by `parseForwardImports`). -/
def firstForwardMatch (line : Str) : Option Str :=
  (scanForwardLine line).head?

/-! ### Anchored declaration regexes of `collectSymbolsFromFile` -/

/-- `^\s*\$([a-zA-Z0-9_-]+)\s*:\s*(.+?);` — returns `(name, raw value)`.
The lazy `(.+?);` takes everything up to the first `;` that leaves the
value non-empty. -/
def varDeclMatch (line : Str) : Option (Str × Str) :=
  match line.dropWhile isSpaceChar with
  | c :: s2 =>
    if c = ('$') then
      let name := s2.takeWhile isSymNameChar
      let s3 := s2.dropWhile isSymNameChar
      if name = [] then none
      else
        match s3.dropWhile isSpaceChar with
        | d :: s5 =>
          if d = (':') then
            match s5.dropWhile isSpaceChar with
            | [] => none
            | v :: s6 =>
              match s6.findIdx? (fun ch => ch = (';')) with
              | none => none
              | some i => some (name, v :: s6.take i)
          else none
        | [] => none
    else none
  | [] => none

/-- `^\s*@mixin\s+([a-zA-Z0-9_-]+)\s*(\([^)]*\))?` — returns the name and
the optional parameter-list capture (parentheses included). -/
def mixinDeclMatch (line : Str) : Option (Str × Option Str) :=
  match dropLit (("@mixin").data) (line.dropWhile isSpaceChar) with
  | none => none
  | some s1 =>
    match ws1 s1 with
    | none => none
    | some s2 =>
      let name := s2.takeWhile isSymNameChar
      let s3 := s2.dropWhile isSymNameChar
      if name = [] then none
      else
        match s3.dropWhile isSpaceChar with
        | c :: s5 =>
          if c = ('(') then
            let inside := s5.takeWhile (fun ch => !(ch = (')')))
            match s5.dropWhile (fun ch => !(ch = (')'))) with
            | _ :: _ => some (name, some ((('(') :: inside) ++ [(')')]))
            | [] => some (name, none)
          else some (name, none)
        | [] => some (name, none)

/-- `^\s*@function\s+([a-zA-Z0-9_-]+)\s*(\([^)]*\))` — like the mixin
pattern but the parameter list is mandatory. -/
def funcDeclMatch (line : Str) : Option (Str × Str) :=
  match dropLit (("@function").data) (line.dropWhile isSpaceChar) with
  | none => none
  | some s1 =>
    match ws1 s1 with
    | none => none
    | some s2 =>
      let name := s2.takeWhile isSymNameChar
      let s3 := s2.dropWhile isSymNameChar
      if name = [] then none
      else
        match s3.dropWhile isSpaceChar with
        | c :: s5 =>
          if c = ('(') then
            let inside := s5.takeWhile (fun ch => !(ch = (')')))
            match s5.dropWhile (fun ch => !(ch = (')'))) with
            | _ :: _ => some (name, (('(') :: inside) ++ [(')')])
            | [] => none
          else none
        | [] => none

/-! ### Dynamic search regexes of `findDefinitionInFile` -/

/-- The three symbol kinds (`"variable" | "mixin" | "function"`). -/
inductive SymKind where
  | svariable
  | smixin
  | sfunction
deriving DecidableEq, Repr

/-- The string used for the kind inside a definitions-cache key. -/
def symKindStr : SymKind → Str
  | .svariable => ("variable").data
  | .smixin => ("mixin").data
  | .sfunction => ("function").data

/-- Does ``new RegExp(`\$${name}\s*:`)`` match at the head of `s`? -/
def varSearchAt (name s : Str) : Bool :=
  match dropLit (('$') :: name) s with
  | none => false
  | some r =>
    match r.dropWhile isSpaceChar with
    | c :: _ => c = (':')
    | [] => false

/-- Does ``new RegExp(`@mixin\s+${name}\s*[({]`)`` match at the head of `s`? -/
def mixinSearchAt (name s : Str) : Bool :=
  match dropLit (("@mixin").data) s with
  | none => false
  | some s1 =>
    match ws1 s1 with
    | none => false
    | some s2 =>
      match dropLit name s2 with
      | none => false
      | some s3 =>
        match s3.dropWhile isSpaceChar with
        | c :: _ => c = ('(') || c = (Char.ofNat 123)
        | [] => false

/-- Does ``new RegExp(`@function\s+${name}\s*\(`)`` match at the head of `s`? -/
def funcSearchAt (name s : Str) : Bool :=
  match dropLit (("@function").data) s with
  | none => false
  | some s1 =>
    match ws1 s1 with
    | none => false
    | some s2 =>
      match dropLit name s2 with
      | none => false
      | some s3 =>
        match s3.dropWhile isSpaceChar with
        | c :: _ => c = ('(')
        | [] => false

/-- The search pattern selected by the `switch (type)` of
`findDefinitionInFile`. -/
def defSearchAt (kind : SymKind) (name : Str) : Str → Bool :=
  match kind with
  | .svariable => varSearchAt name
  | .smixin => mixinSearchAt name
  | .sfunction => funcSearchAt name

/-- Leftmost position at which an unanchored pattern matches
(`regex.test` + `line.indexOf(match[0])`). -/
def findMatchPos (p : Str → Bool) : Str → Option Nat
  | [] => if p [] then some 0 else none
  | c :: r => if p (c :: r) then some 0 else (findMatchPos p r).map (· + 1)

/-- The line scan of `findDefinitionInFile`: skip lines whose trimmed text
starts with `//` or `/*`, return `(line index, column)` of the first line
where the search regex matches. -/
def searchDefLinesAux (kind : SymKind) (name : Str) : Nat → List Str → Option (Nat × Nat)
  | _, [] => none
  | i, l :: rest =>
    if startsWith (trim l) (("//").data) || startsWith (trim l) (("/*").data) then
      searchDefLinesAux kind name (i + 1) rest
    else
      match findMatchPos (defSearchAt kind name) l with
      | some col => some (i, col)
      | none => searchDefLinesAux kind name (i + 1) rest

/-- Search a whole file's lines for a declaration of `name` of the given
kind. -/
def searchDefLines (kind : SymKind) (name : Str) (lines : List Str) : Option (Nat × Nat) :=
  searchDefLinesAux kind name 0 lines

/-! ### Data model -/

/-- An import edge (`interface ScssImport`).  `nsp` models the source's
`namespace` field (`null` = unscoped / global). -/
structure ScssImport where
  filePath : Str
  nsp : Option Str
deriving DecidableEq, Repr

/-- `interface ScssSymbol`. -/
structure ScssSymbol where
  name : Str
  kind : SymKind
  filePath : Str
  line : Nat
  detail : Option Str
  documentation : Option Str
deriving DecidableEq, Repr

/-- A `vscode.Location`: file, zero-based line and column. -/
structure Location where
  filePath : Str
  line : Nat
  col : Nat
deriving DecidableEq, Repr

/-- A diagnostic produced by `validateScssImports`. -/
structure ScssDiagnostic where
  line : Nat
  colStart : Nat
  colEnd : Nat
  message : Str
deriving DecidableEq, Repr

/-- The file system seen through `fs.existsSync` / `workspace.fs.readFile`:
an association list from absolute path to file text. -/
abbrev FileSys := List (Str × Str)

/-- `fs.existsSync`. -/
def existsSync (fsys : FileSys) (p : Str) : Bool :=
  fsys.any (fun e => decide (e.1 = p))

/-- `workspace.fs.readFile` (`none` models the rejected promise / thrown
error for a missing file). -/
def readFile (fsys : FileSys) (p : Str) : Option Str :=
  match fsys with
  | [] => none
  | (k, v) :: rest => if k = p then some v else readFile rest p

/-! ### JavaScript `Map` model (insertion-ordered association list) -/

abbrev AList (α : Type) := List (Str × α)

/-- `Map.get`. -/
def mlookup : AList α → Str → Option α
  | [], _ => none
  | (k, v) :: rest, key => if k = key then some v else mlookup rest key

/-- `Map.set` (replaces in place, appends when the key is new). -/
def mset : AList α → Str → α → AList α
  | [], key, v => [(key, v)]
  | (k, w) :: rest, key, v =>
    if k = key then (key, v) :: rest else (k, w) :: mset rest key v

/-- `Map.delete`. -/
def mdelete : AList α → Str → AList α
  | [], _ => []
  | (k, w) :: rest, key =>
    if k = key then mdelete rest key else (k, w) :: mdelete rest key

/-- Keep only the entries whose key satisfies `p` (the effect of the
`for (const [key] of cache) if (...) cache.delete(key)` loop). -/
def mfilterKeys (p : Str → Bool) : AList α → AList α
  | [] => []
  | (k, w) :: rest =>
    if p k then (k, w) :: mfilterKeys p rest else mfilterKeys p rest

/-! ### The cache (`scss-cache.ts`, per-repository four-partition version)

The `hits`/`misses` statistics counters are omitted: they are observable
only through `getStats`, which no claim concerns, and they do not influence
any lookup result.  `getRepositoryXCache` inserts an empty per-repository
map when one is missing; for lookups this is observationally equivalent to
treating a missing repository entry as the empty map, which is how
`getRepoMap` models it. -/

structure ScssCacheState where
  importsCache : AList (AList (List ScssImport))
  definitionsCache : AList (AList (Option Location))
  forwardCache : AList (AList (List Str))
  symbolsCache : AList (AList (List ScssSymbol))
deriving DecidableEq, Repr

def emptyCache : ScssCacheState := ⟨[], [], [], []⟩

/-- The per-repository partition of one of the four caches. -/
def getRepoMap (c : AList (AList β)) (repo : Str) : AList β :=
  (mlookup c repo).getD []

def ScssCacheState.getImports (st : ScssCacheState) (repo uri : Str) :
    Option (List ScssImport) :=
  mlookup (getRepoMap st.importsCache repo) uri

def ScssCacheState.setImports (st : ScssCacheState) (repo uri : Str)
    (v : List ScssImport) : ScssCacheState :=
  { st with importsCache :=
      (mset st.importsCache repo (mset (getRepoMap st.importsCache repo) uri v)) }

/-- `getDefinition` distinguishes a cached negative result (`some none`)
from an absent entry (`none`), as the source distinguishes `null` from
`undefined`. -/
def ScssCacheState.getDefinition (st : ScssCacheState) (repo key : Str) :
    Option (Option Location) :=
  mlookup (getRepoMap st.definitionsCache repo) key

def ScssCacheState.setDefinition (st : ScssCacheState) (repo key : Str)
    (v : Option Location) : ScssCacheState :=
  { st with definitionsCache :=
      (mset st.definitionsCache repo
        (mset (getRepoMap st.definitionsCache repo) key v)) }

def ScssCacheState.getForwards (st : ScssCacheState) (repo filePath : Str) :
    Option (List Str) :=
  mlookup (getRepoMap st.forwardCache repo) filePath

def ScssCacheState.setForwards (st : ScssCacheState) (repo filePath : Str)
    (v : List Str) : ScssCacheState :=
  { st with forwardCache :=
      (mset st.forwardCache repo (mset (getRepoMap st.forwardCache repo) filePath v)) }

def ScssCacheState.getSymbols (st : ScssCacheState) (repo filePath : Str) :
    Option (List ScssSymbol) :=
  mlookup (getRepoMap st.symbolsCache repo) filePath

def ScssCacheState.setSymbols (st : ScssCacheState) (repo filePath : Str)
    (v : List ScssSymbol) : ScssCacheState :=
  { st with symbolsCache :=
      (mset st.symbolsCache repo (mset (getRepoMap st.symbolsCache repo) filePath v)) }

/-- `invalidateFile`: drop the file's imports, forwards and symbols entries
and every definitions entry whose key starts with `uri + ":"`. -/
def ScssCacheState.invalidateFile (st : ScssCacheState) (repo uri : Str) :
    ScssCacheState where
  importsCache :=
    mset st.importsCache repo (mdelete (getRepoMap st.importsCache repo) uri)
  definitionsCache :=
    mset st.definitionsCache repo
      (mfilterKeys (fun key => !(startsWith key (uri ++ [(':')])))
        (getRepoMap st.definitionsCache repo))
  forwardCache :=
    mset st.forwardCache repo (mdelete (getRepoMap st.forwardCache repo) uri)
  symbolsCache :=
    mset st.symbolsCache repo (mdelete (getRepoMap st.symbolsCache repo) uri)

/-- `invalidateRepository`: drop the repository's entry from all four
partitions. -/
def ScssCacheState.invalidateRepository (st : ScssCacheState) (repo : Str) :
    ScssCacheState where
  importsCache := mdelete st.importsCache repo
  definitionsCache := mdelete st.definitionsCache repo
  forwardCache := mdelete st.forwardCache repo
  symbolsCache := mdelete st.symbolsCache repo

/-! ### Alias resolution (`tsconfig-parser.ts`) -/

/-- `aliasPattern.replace(/\/\*$/, "")`. -/
def stripWildcard (pat : Str) : Str :=
  if endsWith pat (("/*").data) then pat.dropLast.dropLast else pat

/-- Stable insertion preserving descending full-pattern-length order
(the ES2019+ `Array.prototype.sort` with `(a, b) => b.length - a.length`
is stable). -/
def insertAliasDesc (x : Str × List Str) : List (Str × List Str) → List (Str × List Str)
  | [] => [x]
  | y :: ys =>
    if x.1.length < y.1.length then y :: insertAliasDesc x ys else x :: y :: ys

/-- Sort alias patterns by descending full pattern length, stably. -/
def sortAliasesDesc : List (Str × List Str) → List (Str × List Str)
  | [] => []
  | x :: xs => insertAliasDesc x (sortAliasesDesc xs)

/-- The loop body of `resolveAlias`: first sorted pattern whose stripped
prefix is a literal prefix of the import path; the inner `for` over its
resolved roots returns on the first root (an empty root list falls through
to the next pattern). -/
def resolveAliasLoop (importPath : Str) : List (Str × List Str) → Option Str
  | [] => none
  | (pat, roots) :: rest =>
    let stripped := stripWildcard pat
    if startsWith importPath stripped then
      match roots with
      | [] => resolveAliasLoop importPath rest
      | a :: _ => some (pjoin a (importPath.drop stripped.length))
    else resolveAliasLoop importPath rest

/-- `resolveAlias(importPath, aliases)`. -/
def resolveAlias (importPath : Str) (aliases : List (Str × List Str)) : Option Str :=
  resolveAliasLoop importPath (sortAliasesDesc aliases)

/-! ### Path resolution and file probing (`scss-definition-provider.ts`) -/

/-- `resolveScssPath`.  (`resolved || fallback`: `path.join` never returns
an empty string, so the truthiness test coincides with the `null` test.) -/
def resolveScssPath (importPath currentFilePath : Str)
    (aliasMap : List (Str × List Str)) : Str :=
  if startsWith importPath [('.')] then
    presolve (pdirname currentFilePath) importPath
  else
    match resolveAlias importPath aliasMap with
    | some r => r
    | none => presolve (pdirname currentFilePath) importPath

/-- `findScssFile`: build the candidate list (per extension: `<base>.ext`,
`_<basename>.ext`, and — unless the base ends in `/index` or `\index` —
`<base>/index.ext`, `<base>/_index.ext`), return the first existing one. -/
def findScssFile (fsys : FileSys) (basePath : Str) : Option Str :=
  let basename := pbasename basePath
  let dirname := pdirname basePath
  let variants := [("scss").data, ("sass").data].foldl
    (fun acc ext =>
      let acc := acc ++
        [basePath ++ (('.') :: ext),
         pjoin dirname ((('_') :: basename) ++ (('.') :: ext))]
      if !(endsWith basePath (("/index").data)) &&
         !(endsWith basePath (("\\index").data)) then
        acc ++
          [pjoin basePath ((("index.").data) ++ ext),
           pjoin basePath ((("_index.").data) ++ ext)]
      else acc)
    []
  variants.find? (existsSync fsys)

/-! ### Import-edge extraction (`parseScssImports`, `scss-variable-provider.ts`)

The document is `(docPath, docLines)`; `document.uri.toString()` (the cache
key) and `document.uri` (the resolution base) are both modelled by
`docPath`. -/

/-- Namespace derivation for a `@use` without an `as` clause: last segment
of the original import path with one leading underscore stripped. -/
def deriveNamespace (importPath : Str) : Str :=
  let parts := splitOnChar ('/') importPath
  let last := (parts.getLast?).getD []
  match last with
  | c :: r => if c = ('_') then r else c :: r
  | [] => []

/-- Process one `useRegex` match: skip `sass:` built-ins, derive the
namespace, resolve the path, and keep the edge only when a file exists. -/
def useEdge (fsys : FileSys) (aliasMap : List (Str × List Str)) (docPath : Str)
    (pns : Str × Option Str) : Option ScssImport :=
  let importPath := pns.1
  if startsWith importPath (("sass:").data) then none
  else
    let ns0 := match pns.2 with
      | some tok => tok
      | none => deriveNamespace importPath
    let ns1 : Option Str := if ns0 = ("*").data then none else some ns0
    match findScssFile fsys (resolveScssPath importPath docPath aliasMap) with
    | some filePath => some ⟨filePath, ns1⟩
    | none => none

/-- Process one `forwardRegex` match (edges always unscoped). -/
def forwardEdge (fsys : FileSys) (aliasMap : List (Str × List Str)) (docPath : Str)
    (importPath : Str) : Option ScssImport :=
  match findScssFile fsys (resolveScssPath importPath docPath aliasMap) with
  | some filePath => some ⟨filePath, none⟩
  | none => none

/-- Edges contributed by one line: all `@use` matches, then all
`@forward` matches. -/
def lineImports (fsys : FileSys) (aliasMap : List (Str × List Str))
    (docPath line : Str) : List ScssImport :=
  ((scanUseLine line).filterMap (useEdge fsys aliasMap docPath)) ++
  ((scanForwardLine line).filterMap (forwardEdge fsys aliasMap docPath))

/-- `parseScssImports(document, aliasMap, repositoryPath)`. -/
def parseScssImports (fsys : FileSys) (docPath : Str) (docLines : List Str)
    (aliasMap : List (Str × List Str)) (repositoryPath : Str)
    (st : ScssCacheState) : List ScssImport × ScssCacheState :=
  match st.getImports repositoryPath docPath with
  | some cached => (cached, st)
  | none =>
    let imports := docLines.foldl
      (fun acc line => acc ++ lineImports fsys aliasMap docPath line) []
    (imports, st.setImports repositoryPath docPath imports)

/-! ### Import validation (`validateScssImports`, `scss-definition-provider.ts`) -/

/-- Diagnostics contributed by one line. -/
def validateLine (fsys : FileSys) (aliasMap : List (Str × List Str))
    (docPath : Str) (i : Nat) (line : Str) : List ScssDiagnostic :=
  (scanAnyImportLine line).filterMap (fun importPath =>
    match findScssFile fsys (resolveScssPath importPath docPath aliasMap) with
    | some _ => none
    | none =>
      let start := (indexOfSub line importPath).getD 0
      some ⟨i, start, start + importPath.length,
        ((("Cannot find SCSS file: `").data) ++ importPath) ++ [('`')]⟩)

/-- `validateScssImports(document, aliasMap)`. -/
def validateScssImports (fsys : FileSys) (docPath : Str) (docLines : List Str)
    (aliasMap : List (Str × List Str)) : List ScssDiagnostic :=
  (docLines.enum).foldl
    (fun acc il => acc ++ validateLine fsys aliasMap docPath il.1 il.2) []

/-! ### Symbol extraction (`collectSymbolsFromFile`, `scss-completion-provider.ts`) -/

/-- `lastComment || undefined`. -/
def optComment (l : Str) : Option Str :=
  if l = [] then none else some l

/-- Process one line of symbol extraction.  The accumulator carries the
`lastComment` buffer and the symbols collected so far. -/
def collectLine (filePath : Str) (idx : Nat) (acc : Str × List ScssSymbol)
    (line : Str) : Str × List ScssSymbol :=
  let lastComment := acc.1
  let syms := acc.2
  let t := trim line
  if startsWith t (("//").data) then (trim (t.drop 2), syms)
  else
    match varDeclMatch line with
    | some (name, value) =>
      ([], syms ++ [⟨name, .svariable, filePath, idx, some (trim value),
        optComment lastComment⟩])
    | none =>
      match mixinDeclMatch line with
      | some (name, paramsOpt) =>
        ([], syms ++ [⟨name, .smixin, filePath, idx,
          some (paramsOpt.getD (("()").data)), optComment lastComment⟩])
      | none =>
        match funcDeclMatch line with
        | some (name, params) =>
          ([], syms ++ [⟨name, .sfunction, filePath, idx, some params,
            optComment lastComment⟩])
        | none =>
          if t = [] then (lastComment, syms)
          else if startsWith t (("/*").data) then (lastComment, syms)
          else ([], syms)

/-- Symbol extraction over a file's lines. -/
def collectSymbolsLines (filePath : Str) (lines : List Str) : List ScssSymbol :=
  ((lines.enum).foldl (fun acc il => collectLine filePath il.1 acc il.2)
    ([], [])).2

/-- `collectSymbolsFromFile(filePath, repositoryPath)`.  On a read error the
`catch` only logs, so the (empty) symbol list is still cached and
returned. -/
def collectSymbolsFromFile (fsys : FileSys) (repositoryPath : Str)
    (st : ScssCacheState) (filePath : Str) :
    List ScssSymbol × ScssCacheState :=
  match st.getSymbols repositoryPath filePath with
  | some cached => (cached, st)
  | none =>
    let symbols := match readFile fsys filePath with
      | some text => collectSymbolsLines filePath (splitLines text)
      | none => []
    (symbols, st.setSymbols repositoryPath filePath symbols)

/-! ### Forward extraction (`parseForwardImports`, `scss-variable-provider.ts`) -/

/-- `parseForwardImports(filePath, aliasMap, repositoryPath)`.  Unlike
`parseScssImports`, only the first `forwardRegex` match per line counts
(the regex is used without the `g` flag), and on a read error the `catch`
returns `[]` directly — without writing the forwards cache. -/
def parseForwardImports (fsys : FileSys) (aliasMap : List (Str × List Str))
    (repositoryPath : Str) (st : ScssCacheState) (filePath : Str) :
    List Str × ScssCacheState :=
  match st.getForwards repositoryPath filePath with
  | some cached => (cached, st)
  | none =>
    match readFile fsys filePath with
    | none => ([], st)
    | some text =>
      let forwardedFiles := (splitLines text).foldl
        (fun acc line =>
          match firstForwardMatch line with
          | some importPath =>
            match findScssFile fsys (resolveScssPath importPath filePath aliasMap) with
            | some resolvedFile => acc ++ [resolvedFile]
            | none => acc
          | none => acc)
        []
      (forwardedFiles, st.setForwards repositoryPath filePath forwardedFiles)

/-! ### Definition lookup (`findDefinitionInFile`, `scss-variable-provider.ts`)

The shared mutable `visitedFiles` set is threaded explicitly: every result
carries the location (or `null`), the cache state and the visited set.  The
recursion is fueled; `none` of the outer `Option` means the fuel ran out
(`findDefinitionInFile_terminates` shows this never happens for sufficient
fuel, so the fueled function coincides with the source's unbounded
recursion). -/

/-- The definitions-cache key `${filePath}:${name}:${type}`. -/
def defKey (filePath name : Str) (kind : SymKind) : Str :=
  (filePath ++ (':') :: name) ++ (':') :: symKindStr kind

/-- `name.startsWith("_") || name.startsWith("-")`. -/
def isPrivateName (name : Str) : Bool :=
  startsWith name [('_')] || startsWith name [('-')]

/-- The `for (const forwardedFile of forwardedFiles)` loop: run `next` on
each forwarded file in order, threading cache state and visited set,
returning the first non-null location. -/
def findDefList
    (next : ScssCacheState → List Str → Str →
      Option (Option Location × ScssCacheState × List Str)) :
    ScssCacheState → List Str → List Str →
    Option (Option Location × ScssCacheState × List Str)
  | st, visited, [] => some (none, st, visited)
  | st, visited, g :: rest =>
    match next st visited g with
    | none => none
    | some (some loc, st', v') => some (some loc, st', v')
    | some (none, st', v') => findDefList next st' v' rest

/-- `findDefinitionInFile(filePath, name, type, aliasMap, repositoryPath,
visitedFiles)`. -/
def findDefinitionInFile (fsys : FileSys) (aliasMap : List (Str × List Str))
    (repositoryPath name : Str) (kind : SymKind) :
    Nat → ScssCacheState → List Str → Str →
    Option (Option Location × ScssCacheState × List Str)
  | 0, _, _, _ => none
  | fuel + 1, st, visited, filePath =>
    if filePath ∈ visited then some (none, st, visited)
    else
      let visited1 := filePath :: visited
      let key := defKey filePath name kind
      match (if visited1.length = 1 then st.getDefinition repositoryPath key
             else none) with
      | some cached => some (cached, st, visited1)
      | none =>
        if isPrivateName name then some (none, st, visited1)
        else
          match readFile fsys filePath with
          | none =>
            some (none,
              (if visited1.length = 1 then
                st.setDefinition repositoryPath key none
               else st),
              visited1)
          | some text =>
            match searchDefLines kind name (splitLines text) with
            | some ic =>
              let loc : Location := ⟨filePath, ic.1, ic.2⟩
              some (some loc,
                (if visited1.length = 1 then
                  st.setDefinition repositoryPath key (some loc)
                 else st),
                visited1)
            | none =>
              let fwd := parseForwardImports fsys aliasMap repositoryPath st filePath
              match findDefList
                  (findDefinitionInFile fsys aliasMap repositoryPath name kind fuel)
                  fwd.2 visited1 fwd.1 with
              | none => none
              | some (some loc, st3, v3) => some (some loc, st3, v3)
              | some (none, st3, v3) =>
                some (none,
                  (if v3.length = 1 then
                    st3.setDefinition repositoryPath key none
                   else st3),
                  v3)

/-! ### Recursive symbol collection (`collectSymbolsRecursively`,
`scss-completion-provider.ts`)

`collectSymbolsFromFile` returns the very array object that it stores in
the symbols cache, and `collectSymbolsRecursively` then appends the
forwarded symbols to that array with `symbols.push(...)`.  The push
therefore also updates the cached entry of the file being processed; the
model makes this explicit by re-storing the grown list after each push. -/

/-- The `for (const forwardedFile of forwardedFiles)` loop of
`collectSymbolsRecursively`, including the aliasing `setSymbols` after each
push. -/
def collectRecList
    (next : ScssCacheState → List Str → Str →
      Option (List ScssSymbol × ScssCacheState × List Str))
    (repositoryPath filePath : Str) :
    ScssCacheState → List Str → List ScssSymbol → List Str →
    Option (List ScssSymbol × ScssCacheState × List Str)
  | st, visited, acc, [] => some (acc, st, visited)
  | st, visited, acc, g :: rest =>
    match next st visited g with
    | none => none
    | some (gsyms, st', v') =>
      let acc' := acc ++ gsyms
      collectRecList next repositoryPath filePath
        (st'.setSymbols repositoryPath filePath acc') v' acc' rest

/-- `collectSymbolsRecursively(filePath, repositoryPath, aliasMap,
visitedFiles)` (fueled like `findDefinitionInFile`). -/
def collectSymbolsRecursively (fsys : FileSys) (aliasMap : List (Str × List Str))
    (repositoryPath : Str) :
    Nat → ScssCacheState → List Str → Str →
    Option (List ScssSymbol × ScssCacheState × List Str)
  | 0, _, _, _ => none
  | fuel + 1, st, visited, filePath =>
    if filePath ∈ visited then some ([], st, visited)
    else
      let visited1 := filePath :: visited
      let r1 := collectSymbolsFromFile fsys repositoryPath st filePath
      let r2 := parseForwardImports fsys aliasMap repositoryPath r1.2 filePath
      collectRecList (collectSymbolsRecursively fsys aliasMap repositoryPath fuel)
        repositoryPath filePath r2.2 visited1 r1.1 r2.1

/-- Fuel bound for the traversals: the number of file-system entries whose
path is not yet visited. -/
def unvisitedCount (fsys : FileSys) (visited : List Str) : Nat :=
  ((fsys.map Prod.fst).filter (fun p => decide (p ∉ visited))).length

/-- The file paths that have an entry in a repository's forwards cache.
Recursive collection only recurses into files listed in such entries or
present on disk, so this set bounds its recursion depth. -/
def fwdKeys (repo : Str) (st : ScssCacheState) : List Str :=
  (getRepoMap st.forwardCache repo).map Prod.fst

/-! ### Definitions taken from the claims' words (for refinement comparison) -/

/-- Shorthand for string literals of the model. -/
def strOf (s : String) : Str := s.data

/-- Modelled from claim C3's words (not from the source): probe
`<base>.scss`, `<base>.sass`, `_<basename>.scss`, `_<basename>.sass`, and —
only when the base path does not already end in `index` — the four
directory-index variants, in that order. -/
def findScssFileSpecOrder (fsys : FileSys) (basePath : Str) : Option Str :=
  let basename := pbasename basePath
  let dirname := pdirname basePath
  let first4 :=
    [basePath ++ strOf (".scss"),
     basePath ++ strOf (".sass"),
     pjoin dirname ((('_') :: basename) ++ strOf (".scss")),
     pjoin dirname ((('_') :: basename) ++ strOf (".sass"))]
  let variants :=
    if endsWith basePath (strOf ("index")) then first4
    else first4 ++
      [pjoin basePath (strOf ("index.scss")),
       pjoin basePath (strOf ("_index.scss")),
       pjoin basePath (strOf ("index.sass")),
       pjoin basePath (strOf ("_index.sass"))]
  variants.find? (existsSync fsys)

/-- Modelled from claim C4's words (not from the source): among the alias
patterns whose stripped prefixes are literal prefixes of the import path,
select the one with the longest stripped prefix and substitute its first
resolved root. -/
def resolveAliasClaimed (importPath : Str) (aliases : List (Str × List Str)) :
    Option Str :=
  let matching :=
    aliases.filter (fun pr => startsWith importPath (stripWildcard pr.1))
  let best := matching.foldl
    (fun b pr =>
      match b with
      | none => some pr
      | some b0 =>
        if (stripWildcard b0.1).length < (stripWildcard pr.1).length then some pr
        else some b0)
    none
  match best with
  | none => none
  | some (pat, roots) =>
    match roots with
    | a :: _ => some (pjoin a (importPath.drop (stripWildcard pat).length))
    | [] => none

/-! ### Concrete fixtures used by the claim theorems -/

/-- Repository root used by the examples. -/
def pRepo : Str := strOf ("/p")

/-- `a.scss` of the forwarding cycle: declares `$aa` and forwards `b`. -/
def aPath : Str := strOf ("/p/a.scss")

/-- `b.scss` of the forwarding cycle: declares `$bb` and forwards `a`. -/
def bPath : Str := strOf ("/p/b.scss")

/-- A two-file file system whose `@forward` edges form a cycle. -/
def fsAB : FileSys :=
  [(aPath, strOf ("$aa: 1;\n@forward \"./b\";")),
   (bPath, strOf ("$bb: 2;\n@forward \"./a\";"))]

/-- The symbol `$aa: 1;` extracted from `a.scss`. -/
def symAA : ScssSymbol :=
  ⟨strOf ("aa"), .svariable, aPath, 0, some (strOf ("1")), none⟩

/-- The symbol `$bb: 2;` extracted from `b.scss`. -/
def symBB : ScssSymbol :=
  ⟨strOf ("bb"), .svariable, bPath, 0, some (strOf ("2")), none⟩

/-- First recursive collection over `a.scss` (fixture for C9). -/
def c9run1 : Option (List ScssSymbol × ScssCacheState × List Str) :=
  collectSymbolsRecursively fsAB [] pRepo 5 emptyCache [] aPath

/-- The cache state left behind by the first collection. -/
def c9st1 : ScssCacheState := ((c9run1.getD ([], emptyCache, [])).2).1

/-- Second recursive collection over `a.scss`, one request later. -/
def c9run2 : Option (List ScssSymbol × ScssCacheState × List Str) :=
  collectSymbolsRecursively fsAB [] pRepo 5 c9st1 [] aPath

/-! ## Theorems -/

/-- C1: `parseScssImports` produces no import edge for an `@import`
statement, even when its path resolves to an existing stylesheet: on a
document whose only line is `@import "./vars";`, with `/p/vars.scss`
present (second conjunct: the path does resolve via `findScssFile`), the
returned edge list is empty rather than containing
`{filePath: /p/vars.scss, namespace: null}`.  `parseScssImports` only
scans for `@use` and `@forward`. -/
theorem C1_import_edges_missing :
    (parseScssImports [(strOf ("/p/vars.scss"), strOf ("$x: 1;"))]
        (strOf ("/p/app.scss")) [strOf ("@import \"./vars\";")] [] pRepo
        emptyCache).1 = [] ∧
    findScssFile [(strOf ("/p/vars.scss"), strOf ("$x: 1;"))]
        (resolveScssPath (strOf ("./vars")) (strOf ("/p/app.scss")) []) =
      some (strOf ("/p/vars.scss")) := by
  constructor
  · decide
  · decide

/-- C2: for `@use "sass:math";` the statement never yields an import edge
(for any file system and alias map — the `sass:` guard fires before any
resolution), but `validateScssImports` does emit the unresolved-import
diagnostic `Cannot find SCSS file: \`sass:math\`` for it, contrary to the
claim (and to the repository's own changelog entry). -/
theorem C2_sass_builtin :
    (∀ (fsys : FileSys) (aliasMap : List (Str × List Str)),
      (parseScssImports fsys (strOf ("/p/a.scss"))
        [strOf ("@use \"sass:math\";")] aliasMap pRepo emptyCache).1 = []) ∧
    validateScssImports [] (strOf ("/p/a.scss"))
        [strOf ("@use \"sass:math\";")] [] =
      [⟨0, 6, 15, (strOf ("Cannot find SCSS file: `sass:math`"))⟩] := by
  constructor
  · intro fsys aliasMap
    rfl
  · decide

/-- C3 counterexample: with `/d/_foo.scss` and `/d/foo.sass` both present,
`findScssFile "/d/foo"` returns `/d/_foo.scss` (the underscore-partial
`.scss` variant is probed before any `.sass` variant), while the claim's
probe order would return `/d/foo.sass`. -/
theorem C3_probe_order_counterexample :
    findScssFile [(strOf ("/d/_foo.scss"), strOf ("x")),
        (strOf ("/d/foo.sass"), strOf ("y"))] (strOf ("/d/foo")) =
      some (strOf ("/d/_foo.scss")) ∧
    findScssFileSpecOrder [(strOf ("/d/_foo.scss"), strOf ("x")),
        (strOf ("/d/foo.sass"), strOf ("y"))] (strOf ("/d/foo")) =
      some (strOf ("/d/foo.sass")) ∧
    ¬ (some (strOf ("/d/_foo.scss")) = some (strOf ("/d/foo.sass"))) := by
  refine ⟨by decide, by decide, by decide⟩

/-- C3 amended: `findScssFile` probes, per extension (`.scss` first, then
`.sass`): `<base>.ext`, `_<basename>.ext`, and — only when the base path
does not end in `/index` or `\index` — `<base>/index.ext`,
`<base>/_index.ext`; the first existing candidate wins and `none` is
returned when none exists (`find?` over the flattened candidate list). -/
theorem C3_probe_order_amended :
    ∀ (fsys : FileSys) (basePath : Str),
      findScssFile fsys basePath =
        (if !(endsWith basePath (strOf ("/index"))) &&
            !(endsWith basePath (strOf ("\\index"))) then
          [basePath ++ strOf (".scss"),
           pjoin (pdirname basePath) ((('_') :: pbasename basePath) ++ strOf (".scss")),
           pjoin basePath (strOf ("index.scss")),
           pjoin basePath (strOf ("_index.scss")),
           basePath ++ strOf (".sass"),
           pjoin (pdirname basePath) ((('_') :: pbasename basePath) ++ strOf (".sass")),
           pjoin basePath (strOf ("index.sass")),
           pjoin basePath (strOf ("_index.sass"))]
         else
          [basePath ++ strOf (".scss"),
           pjoin (pdirname basePath) ((('_') :: pbasename basePath) ++ strOf (".scss")),
           basePath ++ strOf (".sass"),
           pjoin (pdirname basePath) ((('_') :: pbasename basePath) ++ strOf (".sass"))]).find?
          (existsSync fsys) := by
  intro fsys basePath
  cases h : !(endsWith basePath (strOf ("/index"))) &&
      !(endsWith basePath (strOf ("\\index"))) <;>
    simp only [findScssFile, List.foldl, strOf] at h ⊢ <;>
    rw [h] <;> rfl

/-- Membership is preserved by the stable descending insertion. -/
theorem mem_insertAliasDesc {x y : Str × List Str} {l : List (Str × List Str)} :
    x ∈ insertAliasDesc y l ↔ x = y ∨ x ∈ l := by
  induction l with
  | nil => simp [insertAliasDesc]
  | cons z zs ih =>
    simp only [insertAliasDesc]
    split
    · simp only [List.mem_cons, ih]
      tauto
    · simp only [List.mem_cons]

/-- Sorting the alias patterns does not change membership. -/
theorem mem_sortAliasesDesc {x : Str × List Str} {l : List (Str × List Str)} :
    x ∈ sortAliasesDesc l ↔ x ∈ l := by
  induction l with
  | nil => simp [sortAliasesDesc]
  | cons y ys ih => simp [sortAliasesDesc, mem_insertAliasDesc, ih]

/-- The loop of `resolveAlias` returns `none` exactly when every pattern
whose stripped prefix matches has an empty root list. -/
theorem resolveAliasLoop_eq_none_iff {p : Str} {l : List (Str × List Str)} :
    resolveAliasLoop p l = none ↔
      ∀ pr ∈ l, startsWith p (stripWildcard pr.1) = true → pr.2 = [] := by
  induction l with
  | nil => simp [resolveAliasLoop]
  | cons hd tl ih =>
    obtain ⟨pat, roots⟩ := hd
    simp only [resolveAliasLoop]
    split
    case isTrue h =>
      cases roots with
      | nil =>
        rw [ih]
        constructor
        · intro hall pr hpr
          rcases List.mem_cons.mp hpr with rfl | hmem
          · intro _; rfl
          · exact hall pr hmem
        · intro hall pr hpr
          exact hall pr (List.mem_cons_of_mem _ hpr)
      | cons a rs =>
        simp only [reduceCtorEq, false_iff, not_forall]
        refine ⟨(pat, a :: rs), List.mem_cons_self _ _, ?_⟩
        simp [h]
    case isFalse h =>
      rw [ih]
      constructor
      · intro hall pr hpr
        rcases List.mem_cons.mp hpr with rfl | hmem
        · intro hsw
          exact absurd hsw (by simpa using h)
        · exact hall pr hmem
      · intro hall pr hpr
        exact hall pr (List.mem_cons_of_mem _ hpr)

/-- C4 counterexample: with patterns `@/ab → [/ra]` and `@/a/* → [/rb]`
and import path `@/ab/x`, both stripped prefixes (`@/ab`, `@/a`) match and
the longest is `@/ab`; but `resolveAlias` sorts by full pattern length
(`@/a/*` has length 5 > 4) and returns `/rb/b/x`, not the claimed
`/ra/x`. -/
theorem C4_longest_matching_counterexample :
    resolveAlias (strOf ("@/ab/x"))
        [(strOf ("@/ab"), [strOf ("/ra")]), (strOf ("@/a/*"), [strOf ("/rb")])] =
      some (strOf ("/rb/b/x")) ∧
    resolveAliasClaimed (strOf ("@/ab/x"))
        [(strOf ("@/ab"), [strOf ("/ra")]), (strOf ("@/a/*"), [strOf ("/rb")])] =
      some (strOf ("/ra/x")) ∧
    ¬ (some (strOf ("/rb/b/x")) = some (strOf ("/ra/x"))) := by
  refine ⟨by decide, by decide, by decide⟩

/-- C4 amended: `resolveAlias` orders patterns by descending **full**
pattern length (before the trailing `/*` is stripped), stably, and applies
the first pattern in that order whose stripped prefix matches and whose
root list is non-empty (first root wins); the spec's two-pattern example
still resolves as stated, and `null` is returned exactly when every
matching pattern has no roots (in particular when no pattern matches). -/
theorem C4_alias_resolution_amended :
    resolveAlias (strOf ("@/components/button"))
        [(strOf ("@/*"), [strOf ("/root/src")]),
         (strOf ("@/components/*"), [strOf ("/root/src/components")])] =
      some (strOf ("/root/src/components/button")) ∧
    (∀ (p : Str) (aliases : List (Str × List Str)),
      resolveAlias p aliases = none ↔
        ∀ pr ∈ aliases, startsWith p (stripWildcard pr.1) = true → pr.2 = []) := by
  constructor
  · decide
  · intro p aliases
    rw [resolveAlias, resolveAliasLoop_eq_none_iff]
    constructor
    · intro hall pr hpr
      exact hall pr (mem_sortAliasesDesc.mpr hpr)
    · intro hall pr hpr
      exact hall pr (mem_sortAliasesDesc.mp hpr)

/-- C8 counterexample: with a blank line between `// doc` and `$a: 1;`,
the extracted symbol still carries `doc` as documentation — a blank line
does **not** reset the comment buffer (`if (trimmedLine && ...)` is false
for an empty trimmed line), contrary to the claim's prediction of no
documentation. -/
theorem C8_blank_line_counterexample :
    collectSymbolsLines (strOf ("/l.scss"))
        [strOf ("// doc"), strOf (""), strOf ("$a: 1;")] =
      [⟨strOf ("a"), .svariable, strOf ("/l.scss"), 2, some (strOf ("1")),
        some (strOf ("doc"))⟩] ∧
    ((collectSymbolsLines (strOf ("/l.scss"))
        [strOf ("// doc"), strOf (""), strOf ("$a: 1;")]).map
      (fun s => s.documentation)) = [some (strOf ("doc"))] := by
  refine ⟨by decide, by decide⟩

/-- C8 amended: the comment buffer after one extraction step is: the
comment text for a `//` line; empty after any declaration line; kept
unchanged on a blank line or a line starting with `/*`; and empty on every
other line.  In particular blank lines between a `//` comment and a
declaration do not prevent attachment (second conjunct), while a
non-blank, non-comment, non-declaration line does reset the buffer (third
conjunct). -/
theorem C8_doc_attachment_amended :
    (∀ (filePath : Str) (idx : Nat) (lastComment : Str) (syms : List ScssSymbol)
       (line : Str),
      (collectLine filePath idx (lastComment, syms) line).1 =
        (if startsWith (trim line) (strOf ("//")) then trim ((trim line).drop 2)
         else if (varDeclMatch line).isSome || (mixinDeclMatch line).isSome ||
                 (funcDeclMatch line).isSome then []
         else if trim line = [] then lastComment
         else if startsWith (trim line) (strOf ("/*")) then lastComment
         else [])) ∧
    ((collectSymbolsLines (strOf ("/l.scss"))
        [strOf ("// mix doc"), strOf (""), strOf (""), strOf ("@mixin foo")]).map
      (fun s => s.documentation)) = [some (strOf ("mix doc"))] ∧
    ((collectSymbolsLines (strOf ("/l.scss"))
        [strOf ("// doc"), strOf (".x \x7b"), strOf ("$a: 1;")]).map
      (fun s => s.documentation)) = [none] := by
  refine ⟨?_, by decide, by decide⟩
  intro filePath idx lastComment syms line
  simp only [collectLine, strOf]
  split
  · rfl
  · cases hv : varDeclMatch line with
    | some nv =>
      obtain ⟨n, v⟩ := nv
      simp [hv]
    | none =>
      cases hm : mixinDeclMatch line with
      | some np =>
        obtain ⟨n, pOpt⟩ := np
        simp [hv, hm]
      | none =>
        cases hf : funcDeclMatch line with
        | some np =>
          obtain ⟨n, ps⟩ := np
          simp [hv, hm, hf]
        | none =>
          simp only [hv, hm, hf, Option.isSome_none, Bool.or_false]
          split
          · rfl
          · split <;> rfl

/-! ### Association-map lemmas for the cache claims -/

theorem mlookup_mset_self (m : AList α) (k : Str) (v : α) :
    mlookup (mset m k v) k = some v := by
  induction m with
  | nil => simp [mset, mlookup]
  | cons kv rest ih =>
    obtain ⟨k', w⟩ := kv
    by_cases h : k' = k
    · simp [mset, h, mlookup]
    · simp [mset, h, mlookup, ih]

theorem mlookup_mset_ne (m : AList α) {k k' : Str} (v : α) (h : k' ≠ k) :
    mlookup (mset m k v) k' = mlookup m k' := by
  have h' : ¬ k = k' := fun hh => h hh.symm
  induction m with
  | nil => simp [mset, mlookup, h']
  | cons kv rest ih =>
    obtain ⟨k'', w⟩ := kv
    by_cases h2 : k'' = k
    · subst h2
      simp [mset, mlookup, h']
    · simp only [mset, if_neg h2, mlookup]
      split <;> simp [ih]

theorem mlookup_mdelete_self (m : AList α) (k : Str) :
    mlookup (mdelete m k) k = none := by
  induction m with
  | nil => simp [mdelete, mlookup]
  | cons kv rest ih =>
    obtain ⟨k', w⟩ := kv
    by_cases h : k' = k
    · simp [mdelete, h, ih]
    · simp [mdelete, h, mlookup, ih]

theorem mlookup_mdelete_ne (m : AList α) {k k' : Str} (h : k' ≠ k) :
    mlookup (mdelete m k) k' = mlookup m k' := by
  have h' : ¬ k = k' := fun hh => h hh.symm
  induction m with
  | nil => simp [mdelete]
  | cons kv rest ih =>
    obtain ⟨k'', w⟩ := kv
    by_cases h2 : k'' = k
    · subst h2
      simp [mdelete, mlookup, h', ih]
    · simp only [mdelete, if_neg h2, mlookup]
      split <;> simp [ih]

theorem mlookup_mfilterKeys (p : Str → Bool) (m : AList α) (k : Str) :
    mlookup (mfilterKeys p m) k = if p k = true then mlookup m k else none := by
  induction m with
  | nil => simp [mfilterKeys, mlookup]
  | cons kv rest ih =>
    obtain ⟨k', w⟩ := kv
    by_cases hk : k' = k
    · subst hk
      cases hp : p k' <;> simp [mfilterKeys, hp, mlookup, ih]
    · cases hp : p k' <;> simp [mfilterKeys, hp, mlookup, hk, ih]

theorem getRepoMap_mset_self (c : AList (AList β)) (repo : Str) (v : AList β) :
    getRepoMap (mset c repo v) repo = v := by
  simp [getRepoMap, mlookup_mset_self]

theorem getRepoMap_mset_ne (c : AList (AList β)) {repo repo' : Str} (v : AList β)
    (h : repo' ≠ repo) : getRepoMap (mset c repo v) repo' = getRepoMap c repo' := by
  simp [getRepoMap, mlookup_mset_ne _ _ h]

theorem getRepoMap_mdelete_self (c : AList (AList β)) (repo : Str) :
    getRepoMap (mdelete c repo) repo = [] := by
  simp [getRepoMap, mlookup_mdelete_self]

/-- C7: after `invalidateFile(repo, k)` the imports, forwards and symbols
entries of `k` and every definitions entry whose key starts with `k:` are
gone, while entries of other files (and non-prefixed definition keys) and
of other repositories are untouched; after `invalidateRepository(repo)`
all four partitions of that repository are empty. -/
theorem C7_cache_invalidation :
    ∀ (st : ScssCacheState) (repo k : Str),
      ((st.invalidateFile repo k).getImports repo k = none) ∧
      ((st.invalidateFile repo k).getForwards repo k = none) ∧
      ((st.invalidateFile repo k).getSymbols repo k = none) ∧
      (∀ key : Str, startsWith key (k ++ [(':')]) = true →
        (st.invalidateFile repo k).getDefinition repo key = none) ∧
      (∀ k' : Str, k' ≠ k →
        (st.invalidateFile repo k).getImports repo k' = st.getImports repo k' ∧
        (st.invalidateFile repo k).getForwards repo k' = st.getForwards repo k' ∧
        (st.invalidateFile repo k).getSymbols repo k' = st.getSymbols repo k') ∧
      (∀ key : Str, startsWith key (k ++ [(':')]) = false →
        (st.invalidateFile repo k).getDefinition repo key =
          st.getDefinition repo key) ∧
      (∀ repo' key : Str, repo' ≠ repo →
        (st.invalidateFile repo k).getImports repo' key = st.getImports repo' key ∧
        (st.invalidateFile repo k).getDefinition repo' key =
          st.getDefinition repo' key ∧
        (st.invalidateFile repo k).getForwards repo' key =
          st.getForwards repo' key ∧
        (st.invalidateFile repo k).getSymbols repo' key = st.getSymbols repo' key) ∧
      (∀ key : Str,
        (st.invalidateRepository repo).getImports repo key = none ∧
        (st.invalidateRepository repo).getDefinition repo key = none ∧
        (st.invalidateRepository repo).getForwards repo key = none ∧
        (st.invalidateRepository repo).getSymbols repo key = none) := by
  intro st repo k
  refine ⟨?_, ?_, ?_, ?_, ?_, ?_, ?_, ?_⟩
  · simp [ScssCacheState.getImports, ScssCacheState.invalidateFile,
      getRepoMap_mset_self, mlookup_mdelete_self]
  · simp [ScssCacheState.getForwards, ScssCacheState.invalidateFile,
      getRepoMap_mset_self, mlookup_mdelete_self]
  · simp [ScssCacheState.getSymbols, ScssCacheState.invalidateFile,
      getRepoMap_mset_self, mlookup_mdelete_self]
  · intro key hkey
    simp [ScssCacheState.getDefinition, ScssCacheState.invalidateFile,
      getRepoMap_mset_self, mlookup_mfilterKeys, hkey]
  · intro k' hne
    refine ⟨?_, ?_, ?_⟩ <;>
      simp [ScssCacheState.getImports, ScssCacheState.getForwards,
        ScssCacheState.getSymbols, ScssCacheState.invalidateFile,
        getRepoMap_mset_self, mlookup_mdelete_ne _ hne]
  · intro key hkey
    simp [ScssCacheState.getDefinition, ScssCacheState.invalidateFile,
      getRepoMap_mset_self, mlookup_mfilterKeys, hkey]
  · intro repo' key hne
    refine ⟨?_, ?_, ?_, ?_⟩ <;>
      simp [ScssCacheState.getImports, ScssCacheState.getDefinition,
        ScssCacheState.getForwards, ScssCacheState.getSymbols,
        ScssCacheState.invalidateFile, getRepoMap_mset_ne _ _ hne]
  · intro key
    refine ⟨?_, ?_, ?_, ?_⟩ <;>
      simp [ScssCacheState.getImports, ScssCacheState.getDefinition,
        ScssCacheState.getForwards, ScssCacheState.getSymbols,
        ScssCacheState.invalidateRepository, getRepoMap_mdelete_self, mlookup]

/-- C7 witness: a concrete populated two-repository cache, checked after
`invalidateFile` and `invalidateRepository`. -/
theorem C7_cache_invalidation_witness :
    ((((emptyCache.setImports pRepo aPath []).setDefinition pRepo
        (defKey aPath (strOf ("x")) SymKind.svariable) none).invalidateFile pRepo
        aPath).getImports pRepo aPath = none) ∧
    ((((emptyCache.setImports pRepo aPath []).setDefinition pRepo
        (defKey aPath (strOf ("x")) SymKind.svariable) none).invalidateFile pRepo
        aPath).getDefinition pRepo (defKey aPath (strOf ("x")) SymKind.svariable) =
      none) ∧
    ((((emptyCache.setImports pRepo aPath []).setDefinition pRepo
        (defKey aPath (strOf ("x")) SymKind.svariable) none).invalidateFile pRepo
        aPath).getImports pRepo bPath =
      ((emptyCache.setImports pRepo aPath []).setDefinition pRepo
        (defKey aPath (strOf ("x")) SymKind.svariable)
        none).getImports pRepo bPath) ∧
    (((emptyCache.setImports pRepo aPath
        []).invalidateRepository pRepo).getImports pRepo aPath = none) := by
  refine ⟨(C7_cache_invalidation _ pRepo aPath).1,
    (C7_cache_invalidation _ pRepo aPath).2.2.2.1 _ (by decide),
    ((C7_cache_invalidation _ pRepo aPath).2.2.2.2.1 bPath (by decide)).1,
    ((C7_cache_invalidation _ pRepo aPath).2.2.2.2.2.2.2 aPath).1⟩

/-- C10: when reading the file fails, `parseForwardImports` returns the
empty list and leaves the cache state untouched (the failure is not
memoized); a later call on a file system where the file exists therefore
recomputes and caches the real forward targets (second conjunct: the
concrete cycle fixture). -/
theorem C10_forward_failure_not_cached :
    (∀ (fsys : FileSys) (aliasMap : List (Str × List Str)) (repo : Str)
       (st : ScssCacheState) (f : Str),
      readFile fsys f = none → st.getForwards repo f = none →
      parseForwardImports fsys aliasMap repo st f = ([], st)) ∧
    parseForwardImports fsAB [] pRepo emptyCache aPath =
      ([bPath], emptyCache.setForwards pRepo aPath [bPath]) := by
  constructor
  · intro fsys aliasMap repo st f hread hcache
    simp [parseForwardImports, hcache, hread]
  · decide

/-- C10 witness: the failure case at a concrete empty file system, via the
theorem. -/
theorem C10_forward_failure_not_cached_witness :
    parseForwardImports [] [] pRepo emptyCache aPath = ([], emptyCache) :=
  C10_forward_failure_not_cached.1 [] [] pRepo emptyCache aPath (by decide)
    (by decide)

/-- C6: a lookup for a name beginning with `_` or `-` returns `null` at
every recursion depth — immediately for every nested call (non-empty
visited set), and for the top-level call whenever the definitions cache
has no entry for its key (which no execution can create, since the
private-name check precedes every cache write) — while
`collectSymbolsFromFile` still extracts the private declaration from its
own file (second conjunct). -/
theorem C6_private_names :
    (∀ (fsys : FileSys) (aliasMap : List (Str × List Str)) (repo name : Str)
       (kind : SymKind) (fuel : Nat) (st : ScssCacheState) (visited : List Str)
       (filePath : Str),
      isPrivateName name = true →
      filePath ∉ visited →
      (visited = [] → st.getDefinition repo (defKey filePath name kind) = none) →
      findDefinitionInFile fsys aliasMap repo name kind (fuel + 1) st visited
          filePath = some (none, st, filePath :: visited)) ∧
    (collectSymbolsFromFile [(strOf ("/p/lib.scss"), strOf ("$_helper: 1;"))]
        pRepo emptyCache (strOf ("/p/lib.scss"))).1 =
      [⟨strOf ("_helper"), .svariable, strOf ("/p/lib.scss"), 0,
        some (strOf ("1")), none⟩] := by
  constructor
  · intro fsys aliasMap repo name kind fuel st visited filePath hpriv hmem hcache
    have hc : (if visited = [] then
        st.getDefinition repo (defKey filePath name kind) else none) = none := by
      cases visited with
      | nil => simpa using hcache rfl
      | cons a l => simp
    simp [findDefinitionInFile, hmem, hc, hpriv]
  · decide

/-- C6 witness: looking up `_helper` from its own declaring file at the
top level returns `null` even though the file declares it. -/
theorem C6_private_names_witness :
    findDefinitionInFile [(strOf ("/p/lib.scss"), strOf ("$_helper: 1;"))] []
        pRepo (strOf ("_helper")) SymKind.svariable 1 emptyCache []
        (strOf ("/p/lib.scss")) =
      some (none, emptyCache, [strOf ("/p/lib.scss")]) :=
  C6_private_names.1 _ _ pRepo _ SymKind.svariable 0 emptyCache [] _ (by decide)
    (by simp) (fun _ => by decide)

/-- C9: recursive collection mutates the cached symbols array of the file
it collects for.  After a first collection over `a.scss` (which forwards
`b.scss`), the symbols-cache entry of `a.scss` holds `a`'s own declaration
followed by `b`'s symbols; `collectSymbolsFromFile` then returns exactly
that grown list (same cached array); and a second recursive collection
appends `b`'s symbols again, so the cached entry (and the returned list)
grows to own + forwarded + forwarded. -/
theorem C9_cache_aliasing :
    (c9run1.map (fun r => r.1)) = some [symAA, symBB] ∧
    c9st1.getSymbols pRepo aPath = some [symAA, symBB] ∧
    collectSymbolsFromFile fsAB pRepo c9st1 aPath = ([symAA, symBB], c9st1) ∧
    (c9run2.map (fun r => r.1)) = some [symAA, symBB, symBB] ∧
    (((c9run2.getD ([], emptyCache, [])).2).1).getSymbols pRepo aPath =
      some [symAA, symBB, symBB] := by
  refine ⟨by decide, by decide, by decide, by decide, by decide⟩

/-! ### Lemmas for the traversal-termination claim (C5) -/

theorem length_filter_mono {l : List α} {p q : α → Bool}
    (h : ∀ x, q x = true → p x = true) :
    (l.filter q).length ≤ (l.filter p).length := by
  induction l with
  | nil => simp
  | cons x xs ih =>
    simp only [List.filter_cons]
    cases hq : q x
    · cases hp : p x <;> simp <;> omega
    · rw [h x hq]
      simpa using ih

theorem unvisitedCount_le_of_subset {fsys : FileSys} {v v' : List Str}
    (h : v ⊆ v') : unvisitedCount fsys v' ≤ unvisitedCount fsys v := by
  apply length_filter_mono
  intro x hx
  simp only [decide_eq_true_eq] at hx ⊢
  exact fun hm => hx (h hm)

theorem readFile_some_mem {fsys : FileSys} {f t : Str}
    (h : readFile fsys f = some t) : f ∈ fsys.map Prod.fst := by
  induction fsys with
  | nil => simp [readFile] at h
  | cons kv rest ih =>
    obtain ⟨k, w⟩ := kv
    simp only [readFile] at h
    split at h
    case isTrue heq => simp [heq]
    case isFalse heq => simpa using Or.inr (ih h)

theorem filter_notmem_cons_lt {l : List Str} {f : Str} {v : List Str}
    (hmem : f ∈ l) (hnot : f ∉ v) :
    (l.filter (fun p => decide (p ∉ f :: v))).length <
      (l.filter (fun p => decide (p ∉ v))).length := by
  induction l with
  | nil => simp at hmem
  | cons x xs ih =>
    simp only [List.filter_cons]
    rcases List.mem_cons.mp hmem with rfl | hmem'
    · have h1 : (decide (f ∉ f :: v)) = false := by simp
      have h2 : (decide (f ∉ v)) = true := by simpa using hnot
      rw [h1, h2, if_neg (by decide), if_pos rfl, List.length_cons]
      have hle : (xs.filter (fun p => decide (p ∉ f :: v))).length ≤
          (xs.filter (fun p => decide (p ∉ v))).length := by
        apply length_filter_mono
        intro y hy
        simp only [decide_eq_true_eq, List.mem_cons] at hy ⊢
        exact fun hm => hy (Or.inr hm)
      exact Nat.lt_succ_of_le hle
    · have hstep := ih hmem'
      by_cases hx1 : x ∈ v
      · have d1 : (decide (x ∉ f :: v)) = false := by
          simp [List.mem_cons, hx1]
        have d2 : (decide (x ∉ v)) = false := by simp [hx1]
        rw [d1, d2, if_neg (by decide), if_neg (by decide)]
        exact hstep
      · by_cases hx2 : x = f
        · subst hx2
          have d1 : (decide (x ∉ x :: v)) = false := by simp
          have d2 : (decide (x ∉ v)) = true := by simpa using hx1
          rw [d1, d2, if_neg (by decide), if_pos rfl, List.length_cons]
          exact Nat.lt_succ_of_lt hstep
        · have d1 : (decide (x ∉ f :: v)) = true := by
            simp [List.mem_cons, hx1, hx2]
          have d2 : (decide (x ∉ v)) = true := by simpa using hx1
          rw [d1, d2, if_pos rfl, if_pos rfl, List.length_cons, List.length_cons]
          exact Nat.succ_lt_succ hstep

theorem unvisitedCount_cons_lt {fsys : FileSys} {f : Str} {v : List Str}
    (hmem : f ∈ fsys.map Prod.fst) (hnot : f ∉ v) :
    unvisitedCount fsys (f :: v) < unvisitedCount fsys v :=
  filter_notmem_cons_lt hmem hnot

theorem subset_cons_self (a : α) (l : List α) : l ⊆ a :: l :=
  fun _ hx => List.mem_cons_of_mem _ hx

/-- The forward-loop of the definition lookup only ever grows the visited
set (generic in the per-file step). -/
theorem findDefList_visited_mono
    (next : ScssCacheState → List Str → Str →
      Option (Option Location × ScssCacheState × List Str))
    (hnext : ∀ st v g r, next st v g = some r → v ⊆ r.2.2) :
    ∀ (gs : List Str) (st : ScssCacheState) (v : List Str) r,
      findDefList next st v gs = some r → v ⊆ r.2.2 := by
  intro gs
  induction gs with
  | nil =>
    intro st v r h
    simp only [findDefList] at h
    injection h with h'
    subst h'
    exact List.Subset.refl _
  | cons g rest ih =>
    intro st v r h
    simp only [findDefList] at h
    split at h
    · exact absurd h (by simp)
    · next loc st' v' heq =>
      injection h with h'
      subst h'
      exact hnext st v g _ heq
    · next st' v' heq =>
      exact List.Subset.trans (hnext st v g _ heq) (ih _ _ _ h)

/-- `findDefinitionInFile` only ever grows the visited set. -/
theorem findDefinitionInFile_visited_mono (fsys : FileSys)
    (aliasMap : List (Str × List Str)) (repo name : Str) (kind : SymKind) :
    ∀ (fuel : Nat) (st : ScssCacheState) (visited : List Str) (f : Str) r,
      findDefinitionInFile fsys aliasMap repo name kind fuel st visited f =
        some r → visited ⊆ r.2.2 := by
  intro fuel
  induction fuel with
  | zero =>
    intro st visited f r h
    simp [findDefinitionInFile] at h
  | succ n ih =>
    intro st visited f r h
    simp only [findDefinitionInFile] at h
    split at h
    · injection h with h'
      subst h'
      exact List.Subset.refl _
    · split at h
      · injection h with h'
        subst h'
        exact subset_cons_self _ _
      · split at h
        · injection h with h'
          subst h'
          exact subset_cons_self _ _
        · split at h
          · injection h with h'
            subst h'
            exact subset_cons_self _ _
          · split at h
            · injection h with h'
              subst h'
              exact subset_cons_self _ _
            · split at h
              · exact absurd h (by simp)
              · next loc st3 v3 heq =>
                injection h with h'
                subst h'
                have hsub : (f :: visited) ⊆ v3 :=
                  findDefList_visited_mono _ (ih) _ _ _ _ heq
                exact List.Subset.trans (subset_cons_self _ _) hsub
              · next st3 v3 heq =>
                injection h with h'
                subst h'
                have hsub : (f :: visited) ⊆ v3 :=
                  findDefList_visited_mono _ (ih) _ _ _ _ heq
                exact List.Subset.trans (subset_cons_self _ _) hsub

/-- The forward-loop of the definition lookup never runs out of fuel when
the per-file step does not (generic in the step). -/
theorem findDefList_isSome (fsys : FileSys) (B : Nat)
    (next : ScssCacheState → List Str → Str →
      Option (Option Location × ScssCacheState × List Str))
    (hT : ∀ st v g, unvisitedCount fsys v < B → (next st v g).isSome = true)
    (hM : ∀ st v g r, next st v g = some r → v ⊆ r.2.2) :
    ∀ (gs : List Str) (st : ScssCacheState) (v : List Str),
      unvisitedCount fsys v < B →
      (findDefList next st v gs).isSome = true := by
  intro gs
  induction gs with
  | nil => intro st v hc; simp [findDefList]
  | cons g rest ih =>
    intro st v hc
    have hg := hT st v g hc
    obtain ⟨r, hr⟩ := Option.isSome_iff_exists.mp hg
    simp only [findDefList, hr]
    obtain ⟨loc, st', v'⟩ := r
    cases loc with
    | some l => simp
    | none =>
      have hsub : v ⊆ v' := hM st v g _ hr
      exact ih st' v' (lt_of_le_of_lt (unvisitedCount_le_of_subset hsub) hc)

/-- `findDefinitionInFile` cannot run out of fuel once the fuel exceeds
the number of unvisited files. -/
theorem findDefinitionInFile_isSome (fsys : FileSys)
    (aliasMap : List (Str × List Str)) (repo name : Str) (kind : SymKind) :
    ∀ (fuel : Nat) (st : ScssCacheState) (visited : List Str) (f : Str),
      unvisitedCount fsys visited < fuel →
      (findDefinitionInFile fsys aliasMap repo name kind fuel st visited
        f).isSome = true := by
  intro fuel
  induction fuel with
  | zero => intro st visited f h; omega
  | succ n ih =>
    intro st visited f hc
    simp only [findDefinitionInFile]
    split
    · simp
    · next hnot =>
      split
      · simp
      · split
        · simp
        · cases hread : readFile fsys f with
          | none => simp
          | some text =>
            simp only [hread]
            split
            · simp
            · have hcount : unvisitedCount fsys (f :: visited) < n :=
                lt_of_lt_of_le
                  (unvisitedCount_cons_lt (readFile_some_mem hread) hnot)
                  (Nat.lt_succ_iff.mp hc)
              have hfl := findDefList_isSome fsys n
                (findDefinitionInFile fsys aliasMap repo name kind n)
                (fun st' v' g hcv => ih st' v' g hcv)
                (fun st' v' g r hr =>
                  findDefinitionInFile_visited_mono fsys aliasMap repo name kind
                    n st' v' g r hr)
                (parseForwardImports fsys aliasMap repo st f).1
                (parseForwardImports fsys aliasMap repo st f).2
                (f :: visited) hcount
              obtain ⟨r, hr⟩ := Option.isSome_iff_exists.mp hfl
              rw [hr]
              obtain ⟨loc, st3, v3⟩ := r
              cases loc <;> simp

theorem mlookup_some_mem_keys {m : AList α} {k : Str} {v : α}
    (h : mlookup m k = some v) : k ∈ m.map Prod.fst := by
  induction m with
  | nil => simp [mlookup] at h
  | cons kv rest ih =>
    obtain ⟨k', w⟩ := kv
    simp only [mlookup] at h
    split at h
    case isTrue heq =>
      subst heq
      rw [List.map_cons]
      exact List.mem_cons_self _ _
    case isFalse heq =>
      rw [List.map_cons]
      exact List.mem_cons_of_mem _ (ih h)

theorem keys_mset {m : AList α} {k : Str} {v : α} :
    ∀ x ∈ (mset m k v).map Prod.fst, x = k ∨ x ∈ m.map Prod.fst := by
  induction m with
  | nil =>
    intro x hx
    simp only [mset, List.map_cons, List.map_nil, List.mem_singleton] at hx
    exact Or.inl hx
  | cons kv rest ih =>
    obtain ⟨k', w⟩ := kv
    intro x hx
    by_cases heq : k' = k
    · simp only [mset, if_pos heq, List.map_cons, List.mem_cons] at hx
      rcases hx with h | h
      · exact Or.inl h
      · right
        rw [List.map_cons]
        exact List.mem_cons_of_mem _ h
    · simp only [mset, if_neg heq, List.map_cons, List.mem_cons] at hx
      rcases hx with h | h
      · right
        rw [List.map_cons]
        exact h ▸ List.mem_cons_self _ _
      · rcases ih x h with h' | h'
        · exact Or.inl h'
        · right
          rw [List.map_cons]
          exact List.mem_cons_of_mem _ h'

theorem findScssFile_some_mem {fsys : FileSys} {basePath f : Str}
    (h : findScssFile fsys basePath = some f) : f ∈ fsys.map Prod.fst := by
  have hp := List.find?_some h
  simp only [existsSync, List.any_eq_true, decide_eq_true_eq] at hp
  obtain ⟨e, he, heq⟩ := hp
  exact heq ▸ List.mem_map_of_mem Prod.fst he

/-- `setSymbols` does not touch the forwards cache. -/
theorem fwdKeys_setSymbols (repo repo2 fp : Str) (st : ScssCacheState)
    (v : List ScssSymbol) :
    fwdKeys repo (st.setSymbols repo2 fp v) = fwdKeys repo st := rfl

/-- `collectSymbolsFromFile` does not touch the forwards cache. -/
theorem collectSymbolsFromFile_fwdKeys (fsys : FileSys) (repo repo2 f : Str)
    (st : ScssCacheState) :
    fwdKeys repo (collectSymbolsFromFile fsys repo2 st f).2 = fwdKeys repo st := by
  unfold collectSymbolsFromFile
  split <;> rfl

/-- `parseForwardImports` only adds forwards-cache entries for files that
exist on disk. -/
theorem parseForwardImports_fwdKeys (fsys : FileSys)
    (aliasMap : List (Str × List Str)) (repo : Str) (st : ScssCacheState)
    (f : Str) (hclean : fwdKeys repo st ⊆ fsys.map Prod.fst) :
    fwdKeys repo (parseForwardImports fsys aliasMap repo st f).2 ⊆
      fsys.map Prod.fst := by
  unfold parseForwardImports
  split
  · exact hclean
  · split
    · exact hclean
    · next text hread =>
      intro x hx
      simp only [fwdKeys, ScssCacheState.setForwards, getRepoMap_mset_self] at hx
      rcases keys_mset x hx with rfl | hx'
      · exact readFile_some_mem hread
      · exact hclean hx'

/-- A non-empty forwards result means the file was either already a
forwards-cache key or exists on disk. -/
theorem parseForwardImports_nonempty_mem {fsys : FileSys}
    {aliasMap : List (Str × List Str)} {repo st f}
    (h : (parseForwardImports fsys aliasMap repo st f).1 ≠ []) :
    f ∈ fwdKeys repo st ∨ f ∈ fsys.map Prod.fst := by
  unfold parseForwardImports at h
  split at h
  · next cached heq => exact Or.inl (mlookup_some_mem_keys heq)
  · split at h
    · exact absurd rfl h
    · next text hread => exact Or.inr (readFile_some_mem hread)

/-- The push-loop of recursive collection only ever grows the visited set
(generic in the per-file step). -/
theorem collectRecList_visited_mono
    (next : ScssCacheState → List Str → Str →
      Option (List ScssSymbol × ScssCacheState × List Str))
    (hnext : ∀ st v g r, next st v g = some r → v ⊆ r.2.2)
    (repo fp : Str) :
    ∀ (gs : List Str) (st : ScssCacheState) (v : List Str)
      (acc : List ScssSymbol) r,
      collectRecList next repo fp st v acc gs = some r → v ⊆ r.2.2 := by
  intro gs
  induction gs with
  | nil =>
    intro st v acc r h
    simp only [collectRecList] at h
    injection h with h'
    subst h'
    exact List.Subset.refl _
  | cons g rest ih =>
    intro st v acc r h
    simp only [collectRecList] at h
    split at h
    · exact absurd h (by simp)
    · next gsyms st' v' heq =>
      exact List.Subset.trans (hnext st v g _ heq) (ih _ _ _ _ h)

/-- `collectSymbolsRecursively` only ever grows the visited set. -/
theorem collectSymbolsRecursively_visited_mono (fsys : FileSys)
    (aliasMap : List (Str × List Str)) (repo : Str) :
    ∀ (fuel : Nat) (st : ScssCacheState) (visited : List Str) (f : Str) r,
      collectSymbolsRecursively fsys aliasMap repo fuel st visited f = some r →
      visited ⊆ r.2.2 := by
  intro fuel
  induction fuel with
  | zero =>
    intro st visited f r h
    simp [collectSymbolsRecursively] at h
  | succ n ih =>
    intro st visited f r h
    simp only [collectSymbolsRecursively] at h
    split at h
    · injection h with h'
      subst h'
      exact List.Subset.refl _
    · refine List.Subset.trans (subset_cons_self _ _)
        (collectRecList_visited_mono _ (ih)
          repo f _ _ _ _ _ h)

/-- The push-loop of recursive collection preserves the forwards-cache
cleanliness invariant (generic in the per-file step). -/
theorem collectRecList_fwdKeys (fsys : FileSys) (repo fp : Str)
    (next : ScssCacheState → List Str → Str →
      Option (List ScssSymbol × ScssCacheState × List Str))
    (hnext : ∀ st v g r, next st v g = some r →
      fwdKeys repo st ⊆ fsys.map Prod.fst →
      fwdKeys repo r.2.1 ⊆ fsys.map Prod.fst) :
    ∀ (gs : List Str) (st : ScssCacheState) (v : List Str)
      (acc : List ScssSymbol) r,
      collectRecList next repo fp st v acc gs = some r →
      fwdKeys repo st ⊆ fsys.map Prod.fst →
      fwdKeys repo r.2.1 ⊆ fsys.map Prod.fst := by
  intro gs
  induction gs with
  | nil =>
    intro st v acc r h hclean
    simp only [collectRecList] at h
    injection h with h'
    subst h'
    exact hclean
  | cons g rest ih =>
    intro st v acc r h hclean
    simp only [collectRecList] at h
    split at h
    · exact absurd h (by simp)
    · next gsyms st' v' heq =>
      have h1 := hnext st v g _ heq hclean
      exact ih _ _ _ _ h (by rwa [fwdKeys_setSymbols])

/-- `collectSymbolsRecursively` preserves the forwards-cache cleanliness
invariant. -/
theorem collectSymbolsRecursively_fwdKeys (fsys : FileSys)
    (aliasMap : List (Str × List Str)) (repo : Str) :
    ∀ (fuel : Nat) (st : ScssCacheState) (visited : List Str) (f : Str) r,
      collectSymbolsRecursively fsys aliasMap repo fuel st visited f = some r →
      fwdKeys repo st ⊆ fsys.map Prod.fst →
      fwdKeys repo r.2.1 ⊆ fsys.map Prod.fst := by
  intro fuel
  induction fuel with
  | zero =>
    intro st visited f r h hclean
    simp [collectSymbolsRecursively] at h
  | succ n ih =>
    intro st visited f r h hclean
    simp only [collectSymbolsRecursively] at h
    split at h
    · injection h with h'
      subst h'
      exact hclean
    · have h1 : fwdKeys repo
          (collectSymbolsFromFile fsys repo st f).2 ⊆ fsys.map Prod.fst := by
        rwa [collectSymbolsFromFile_fwdKeys]
      have h2 := parseForwardImports_fwdKeys fsys aliasMap repo _ f h1
      exact collectRecList_fwdKeys fsys repo f _ (ih) _ _ _ _ _ h h2

/-- The push-loop of recursive collection never runs out of fuel when the
per-file step does not (generic in the step). -/
theorem collectRecList_isSome (fsys : FileSys) (B : Nat) (repo fp : Str)
    (next : ScssCacheState → List Str → Str →
      Option (List ScssSymbol × ScssCacheState × List Str))
    (hT : ∀ st v g, fwdKeys repo st ⊆ fsys.map Prod.fst →
      unvisitedCount fsys v < B → (next st v g).isSome = true)
    (hM : ∀ st v g r, next st v g = some r → v ⊆ r.2.2)
    (hK : ∀ st v g r, next st v g = some r →
      fwdKeys repo st ⊆ fsys.map Prod.fst →
      fwdKeys repo r.2.1 ⊆ fsys.map Prod.fst) :
    ∀ (gs : List Str) (st : ScssCacheState) (v : List Str)
      (acc : List ScssSymbol),
      fwdKeys repo st ⊆ fsys.map Prod.fst →
      unvisitedCount fsys v < B →
      (collectRecList next repo fp st v acc gs).isSome = true := by
  intro gs
  induction gs with
  | nil => intro st v acc hclean hc; simp [collectRecList]
  | cons g rest ih =>
    intro st v acc hclean hc
    have hg := hT st v g hclean hc
    obtain ⟨r, hr⟩ := Option.isSome_iff_exists.mp hg
    simp only [collectRecList, hr]
    obtain ⟨gsyms, st', v'⟩ := r
    have hclean' : fwdKeys repo st' ⊆ fsys.map Prod.fst := hK st v g _ hr hclean
    have hsub : v ⊆ v' := hM st v g _ hr
    exact ih _ _ _ (by rwa [fwdKeys_setSymbols])
      (lt_of_le_of_lt (unvisitedCount_le_of_subset hsub) hc)

/-- `collectSymbolsRecursively` cannot run out of fuel once the fuel
exceeds the number of unvisited files, provided every forwards-cache entry
belongs to an existing file (which is the only kind of entry the code ever
writes). -/
theorem collectSymbolsRecursively_isSome (fsys : FileSys)
    (aliasMap : List (Str × List Str)) (repo : Str) :
    ∀ (fuel : Nat) (st : ScssCacheState) (visited : List Str) (f : Str),
      fwdKeys repo st ⊆ fsys.map Prod.fst →
      unvisitedCount fsys visited < fuel →
      (collectSymbolsRecursively fsys aliasMap repo fuel st visited
        f).isSome = true := by
  intro fuel
  induction fuel with
  | zero => intro st visited f hclean h; omega
  | succ n ih =>
    intro st visited f hclean hc
    simp only [collectSymbolsRecursively]
    split
    · simp
    · next hnot =>
      by_cases hemp : (parseForwardImports fsys aliasMap repo
          (collectSymbolsFromFile fsys repo st f).2 f).1 = []
      · rw [hemp]
        simp [collectRecList]
      · have h1 : fwdKeys repo
            (collectSymbolsFromFile fsys repo st f).2 ⊆ fsys.map Prod.fst := by
          rwa [collectSymbolsFromFile_fwdKeys]
        have hf : f ∈ fsys.map Prod.fst := by
          rcases parseForwardImports_nonempty_mem hemp with h | h
          · exact h1 h
          · exact h
        have hcount : unvisitedCount fsys (f :: visited) < n :=
          lt_of_lt_of_le (unvisitedCount_cons_lt hf hnot)
            (Nat.lt_succ_iff.mp hc)
        have h2 := parseForwardImports_fwdKeys fsys aliasMap repo _ f h1
        exact collectRecList_isSome fsys n repo f _
          (fun st' v' g hk hcv => ih st' v' g hk hcv)
          (fun st' v' g r hr =>
            collectSymbolsRecursively_visited_mono fsys aliasMap repo n st' v' g
              r hr)
          (fun st' v' g r hr hk =>
            collectSymbolsRecursively_fwdKeys fsys aliasMap repo n st' v' g r hr
              hk)
          _ _ _ _ h2 hcount

/-- C5: definition lookup and recursive symbol collection are cycle-safe.
(1)/(2): on a revisited file both return immediately — `null` (resp. the
empty list) — with the cache state and visited set untouched, so no file
is entered twice in one traversal.  (3)/(4): with fuel exceeding the
number of unvisited files the fueled recursions never exhaust their fuel
(for collection, provided every forwards-cache entry belongs to an
existing file, which is the only kind the code writes), i.e. the source's
unbounded recursions terminate.  (5)–(7): on the concrete two-file
forwarding cycle `a.scss ⇄ b.scss`, collection over `a` terminates with
the symbols discovered before the cycle closed and lookup of `$bb` (resp.
of an undeclared `$zz`) terminates with the location in `b.scss` (resp.
`null`). -/
theorem C5_cycle_safety :
    (∀ (fsys : FileSys) (aliasMap : List (Str × List Str)) (repo name : Str)
       (kind : SymKind) (fuel : Nat) (st : ScssCacheState) (visited : List Str)
       (f : Str), f ∈ visited →
      findDefinitionInFile fsys aliasMap repo name kind (fuel + 1) st visited f =
        some (none, st, visited)) ∧
    (∀ (fsys : FileSys) (aliasMap : List (Str × List Str)) (repo : Str)
       (fuel : Nat) (st : ScssCacheState) (visited : List Str) (f : Str),
      f ∈ visited →
      collectSymbolsRecursively fsys aliasMap repo (fuel + 1) st visited f =
        some ([], st, visited)) ∧
    (∀ (fsys : FileSys) (aliasMap : List (Str × List Str)) (repo name : Str)
       (kind : SymKind) (fuel : Nat) (st : ScssCacheState) (visited : List Str)
       (f : Str), unvisitedCount fsys visited < fuel →
      (findDefinitionInFile fsys aliasMap repo name kind fuel st visited
        f).isSome = true) ∧
    (∀ (fsys : FileSys) (aliasMap : List (Str × List Str)) (repo : Str)
       (fuel : Nat) (st : ScssCacheState) (visited : List Str) (f : Str),
      fwdKeys repo st ⊆ fsys.map Prod.fst →
      unvisitedCount fsys visited < fuel →
      (collectSymbolsRecursively fsys aliasMap repo fuel st visited
        f).isSome = true) ∧
    ((collectSymbolsRecursively fsAB [] pRepo 5 emptyCache [] aPath).map
      (fun r => r.1)) = some [symAA, symBB] ∧
    ((findDefinitionInFile fsAB [] pRepo (strOf ("bb")) SymKind.svariable 5
        emptyCache [] aPath).map (fun r => r.1)) =
      some (some ⟨bPath, 0, 0⟩) ∧
    ((findDefinitionInFile fsAB [] pRepo (strOf ("zz")) SymKind.svariable 5
        emptyCache [] aPath).map (fun r => r.1)) = some none := by
  refine ⟨?_, ?_, ?_, ?_, by decide, by decide, by decide⟩
  · intro fsys aliasMap repo name kind fuel st visited f h
    simp [findDefinitionInFile, h]
  · intro fsys aliasMap repo fuel st visited f h
    simp [collectSymbolsRecursively, h]
  · intro fsys aliasMap repo name kind fuel st visited f h
    exact findDefinitionInFile_isSome fsys aliasMap repo name kind fuel st
      visited f h
  · intro fsys aliasMap repo fuel st visited f hclean h
    exact collectSymbolsRecursively_isSome fsys aliasMap repo fuel st visited f
      hclean h

/-- C5 witness: the revisit and termination conjuncts applied on the
concrete cycle fixture. -/
theorem C5_cycle_safety_witness :
    findDefinitionInFile fsAB [] pRepo (strOf ("bb")) SymKind.svariable 1
        emptyCache [aPath] aPath = some (none, emptyCache, [aPath]) ∧
    collectSymbolsRecursively fsAB [] pRepo 1 emptyCache [aPath] aPath =
      some ([], emptyCache, [aPath]) ∧
    (findDefinitionInFile fsAB [] pRepo (strOf ("bb")) SymKind.svariable 3
      emptyCache [] aPath).isSome = true ∧
    (collectSymbolsRecursively fsAB [] pRepo 3 emptyCache [] aPath).isSome =
      true :=
  ⟨C5_cycle_safety.1 fsAB [] pRepo (strOf ("bb")) SymKind.svariable 0 emptyCache
      [aPath] aPath (by decide),
   C5_cycle_safety.2.1 fsAB [] pRepo 0 emptyCache [aPath] aPath (by decide),
   C5_cycle_safety.2.2.1 fsAB [] pRepo (strOf ("bb")) SymKind.svariable 3
      emptyCache [] aPath (by decide),
   C5_cycle_safety.2.2.2.1 fsAB [] pRepo 3 emptyCache [] aPath
      (List.nil_subset _) (by decide)⟩

end ScssNavigator
